import Mathlib

/-!
Verification of the custom ZIP creator (`CustomZipCreator`) of the
pdftoimage repository.

The TypeScript component is shallowly embedded as follows:
* bytes are `Nat` values (always kept below 256 where the source stores
  them into a `Uint8Array`); byte buffers are `List Nat`;
* JavaScript 32-bit integer arithmetic (`^`, `&`, `>>>`) is modelled on
  the unsigned 32-bit representation: every intermediate value is a `Nat`
  below `2 ^ 32`, and `x ^^^ y`, `x &&& y`, `x >>> k` coincide with the
  JavaScript operations on those representations;
* `DataView.setUint16` / `setUint32` (little-endian) become `uint16LE` /
  `uint32LE`, which truncate their argument modulo `2 ^ 16` / `2 ^ 32`
  exactly as the JavaScript methods do;
* `TextEncoder().encode` becomes `textEncode` (UTF-8);
* the browser `atob` (HTML forgiving-base64 decode, which throws
  `InvalidCharacterError` on malformed input) becomes the `Option`-valued
  `atob`; JavaScript exceptions are modelled with `Except`;
* `String.prototype.split(",")` becomes `splitOnComma` on character
  lists.
-/

namespace PdfToImage

/-! ## CRC-32 engine (`CustomZipCreator.crcTable`, `calculateCRC32`) -/

/-- One iteration of the table-building loop:
`crc = crc & 1 ? 0xedb88320 ^ (crc >>> 1) : crc >>> 1`. -/
def crcStep (crc : Nat) : Nat :=
  if crc &&& 1 = 1 then 0xedb88320 ^^^ (crc >>> 1) else crc >>> 1

/-- Entry `i` of the CRC lookup table: eight `crcStep` iterations on `i`. -/
def crcTableEntry (i : Nat) : Nat := crcStep^[8] i

/-- The 256-entry CRC-32 lookup table (`CustomZipCreator.crcTable`). -/
def crcTable : List Nat := (List.range 256).map crcTableEntry

/-- The per-byte CRC update inside the loop of `calculateCRC32`:
`crc = crcTable[(crc ^ byte) & 0xff] ^ (crc >>> 8)`. -/
def crcUpdate (crc byte : Nat) : Nat :=
  crcTable.getD ((crc ^^^ byte) &&& 0xff) 0 ^^^ (crc >>> 8)

/-- `calculateCRC32`: register starts at `0xffffffff`, is updated once per
byte, and is finally XORed with `0xffffffff` (the JavaScript `>>> 0` is the
identity on the unsigned representation tracked here). -/
def calculateCRC32 (data : List Nat) : Nat :=
  (data.foldl crcUpdate 0xffffffff) ^^^ 0xffffffff

/-! ## Text encoding (`TextEncoder().encode`) -/

/-- UTF-8 encoding of a single Unicode scalar value. -/
def utf8EncodeChar (c : Char) : List Nat :=
  let v := c.toNat
  if v < 0x80 then [v]
  else if v < 0x800 then
    [0xc0 ||| (v >>> 6), 0x80 ||| (v &&& 0x3f)]
  else if v < 0x10000 then
    [0xe0 ||| (v >>> 12), 0x80 ||| ((v >>> 6) &&& 0x3f), 0x80 ||| (v &&& 0x3f)]
  else
    [0xf0 ||| (v >>> 18), 0x80 ||| ((v >>> 12) &&& 0x3f),
     0x80 ||| ((v >>> 6) &&& 0x3f), 0x80 ||| (v &&& 0x3f)]

/-- `TextEncoder().encode`: the UTF-8 bytes of a string. -/
def textEncode (s : String) : List Nat := s.data.flatMap utf8EncodeChar

/-! ## base64 decoding (browser `atob`, HTML forgiving-base64) -/

/-- ASCII whitespace removed by forgiving-base64 decode. -/
def isB64Whitespace (c : Char) : Bool :=
  c = ' ' || c = '\t' || c = '\n' || c = '\x0c' || c = '\r'

/-- Value of one base64 alphabet character; `none` for any other character
(including `=`, which is only allowed as stripped trailing padding). -/
def b64Val (c : Char) : Option Nat :=
  if 'A' ≤ c ∧ c ≤ 'Z' then some (c.toNat - 'A'.toNat)
  else if 'a' ≤ c ∧ c ≤ 'z' then some (c.toNat - 'a'.toNat + 26)
  else if '0' ≤ c ∧ c ≤ '9' then some (c.toNat - '0'.toNat + 52)
  else if c = '+' then some 62
  else if c = '/' then some 63
  else none

/-- Reassemble 6-bit groups into bytes: four groups give three bytes, a
final pair gives one byte and a final triple gives two. -/
def b64Decode6 : List Nat → List Nat
  | a :: b :: c :: d :: rest =>
      (a * 4 + b / 16) :: ((b % 16) * 16 + c / 4) :: ((c % 4) * 64 + d)
        :: b64Decode6 rest
  | [a, b] => [a * 4 + b / 16]
  | [a, b, c] => [a * 4 + b / 16, (b % 16) * 16 + c / 4]
  | _ => []

/-- Remove one trailing `=`, if present. -/
def stripOneEq (l : List Char) : List Char :=
  match l.getLast? with
  | some '=' => l.dropLast
  | _ => l

/-- HTML forgiving-base64 decode on a character list: strip ASCII
whitespace; when the length is a multiple of four, strip up to two
trailing `=`; fail when the remaining length is `1 (mod 4)` or any
character is outside the base64 alphabet; otherwise decode. -/
def atobChars (s : List Char) : Option (List Nat) :=
  let d0 := s.filter fun c => !isB64Whitespace c
  let d1 := if d0.length % 4 = 0 then stripOneEq (stripOneEq d0) else d0
  if d1.length % 4 = 1 then none
  else
    match d1.mapM b64Val with
    | none => none
    | some vals => some (b64Decode6 vals)

/-- Browser `atob`; `none` models the synchronous `InvalidCharacterError`.
Composed with `charCodeAt` as in `base64ToUint8Array`, the decoded binary
string is exactly this byte list. -/
def atob (s : String) : Option (List Nat) := atobChars s.data

/-! ## Entry registration (`ZipEntry`, `addFile`, `addImageFromDataURL`) -/

/-- `ZipEntry`: filename, payload bytes, and the checksum stored when the
entry was added. -/
structure ZipEntry where
  filename : String
  data : List Nat
  crc32 : Nat
  deriving Repr, DecidableEq

/-- The `data` argument of `addFile`: a string or a `Uint8Array`. -/
inductive FileData where
  | str (s : String)
  | bytes (b : List Nat)
  deriving Repr, DecidableEq

/-- `addFile(filename, data, isBase64)`; the entries array is the explicit
state.  A string is base64-decoded (which may throw) or UTF-8 encoded; the
checksum is computed and the new entry pushed at the end.  The source
performs no validation of the name length or payload size. -/
def addFile (entries : List ZipEntry) (filename : String) (data : FileData)
    ( isBase64 : Bool) : Except String (List ZipEntry) :=
  match data with
  | .str s =>
      if isBase64 then
        match atob s with
        | none => .error "InvalidCharacterError"
        | some fileData =>
            .ok (entries ++ [⟨filename, fileData, calculateCRC32 fileData⟩])
      else
        let fileData := textEncode s
        .ok (entries ++ [⟨filename, fileData, calculateCRC32 fileData⟩])
  | .bytes b => .ok (entries ++ [⟨filename, b, calculateCRC32 b⟩])

/-- JavaScript `String.prototype.split(",")` on a character list. -/
def splitOnComma : List Char → List (List Char)
  | [] => [[]]
  | c :: rest =>
      if c = ',' then [] :: splitOnComma rest
      else
        match splitOnComma rest with
        | [] => [[c]]
        | h :: t => (c :: h) :: t

/-- `addImageFromDataURL(filename, dataURL)`: take element 1 of
`dataURL.split(",")` and delegate to `addFile` with `isBase64 = true`.
When the data URL has no comma, element 1 is `undefined` and the call
crashes synchronously (a `TypeError` inside `calculateCRC32`) before any
entry is pushed; that crash is modelled as an error value. -/
def addImageFromDataURL (entries : List ZipEntry) (filename dataURL : String) :
    Except String (List ZipEntry) :=
  match (splitOnComma dataURL.data).drop 1 with
  | [] => .error "TypeError"
  | b :: _ => addFile entries filename (.str (String.mk b)) true

/-! ## Little-endian field serialization (`DataView` writes) -/

/-- `DataView.setUint16(_, v, true)`: `v mod 2^16` as two little-endian
bytes. -/
def uint16LE (v : Nat) : List Nat := [v % 256, (v / 256) % 256]

/-- `DataView.setUint32(_, v, true)`: `v mod 2^32` as four little-endian
bytes. -/
def uint32LE (v : Nat) : List Nat :=
  [v % 256, (v / 256) % 256, (v / 65536) % 256, (v / 16777216) % 256]

/-- `createLocalFileHeader(filename, fileSize, crc32)`: the 30-byte local
file header followed by the encoded filename, fields in the order and at
the offsets written by the source. -/
def createLocalFileHeader (filename : String) (fileSize crc32 : Nat) :
    List Nat :=
  let filenameBytes := textEncode filename
  uint32LE 0x04034b50 ++       -- local file header signature
  uint16LE 20 ++               -- version needed to extract
  uint16LE 0 ++                -- general purpose bit flag
  uint16LE 0 ++                -- compression method (0 = stored)
  uint16LE 0 ++ uint16LE 0 ++  -- last mod time / date
  uint32LE crc32 ++            -- CRC-32
  uint32LE fileSize ++         -- compressed size
  uint32LE fileSize ++         -- uncompressed size
  uint16LE filenameBytes.length ++  -- filename length
  uint16LE 0 ++                -- extra field length
  filenameBytes

/-- `createCentralDirectoryEntry(filename, fileSize, crc32, offset)`: the
46-byte central directory record followed by the encoded filename. -/
def createCentralDirectoryEntry (filename : String) (fileSize crc32 off : Nat) :
    List Nat :=
  let filenameBytes := textEncode filename
  uint32LE 0x02014b50 ++       -- central directory signature
  uint16LE 20 ++               -- version made by
  uint16LE 20 ++               -- version needed to extract
  uint16LE 0 ++                -- general purpose bit flag
  uint16LE 0 ++                -- compression method
  uint16LE 0 ++ uint16LE 0 ++  -- last mod time / date
  uint32LE crc32 ++            -- CRC-32
  uint32LE fileSize ++         -- compressed size
  uint32LE fileSize ++         -- uncompressed size
  uint16LE filenameBytes.length ++  -- filename length
  uint16LE 0 ++                -- extra field length
  uint16LE 0 ++                -- file comment length
  uint16LE 0 ++                -- disk number start
  uint16LE 0 ++                -- internal file attributes
  uint32LE 0 ++                -- external file attributes
  uint32LE off ++              -- relative offset of local header
  filenameBytes

/-- `createEndOfCentralDirectory(totalEntries, centralDirectorySize,
centralDirectoryOffset)`: the 22-byte end-of-central-directory record. -/
def createEndOfCentralDirectory (totalEntries cdirSize cdirOffset : Nat) :
    List Nat :=
  uint32LE 0x06054b50 ++       -- end of central directory signature
  uint16LE 0 ++                -- number of this disk
  uint16LE 0 ++                -- disk where central directory starts
  uint16LE totalEntries ++     -- records on this disk
  uint16LE totalEntries ++     -- total records
  uint32LE cdirSize ++         -- size of central directory
  uint32LE cdirOffset ++       -- offset of start of central directory
  uint16LE 0                   -- comment length

/-! ## Archive finalization (`createZip`) -/

/-- Loop state of `createZip`: the accumulated parts, the accumulated
central directory records, and the running offset. -/
structure CreateZipAcc where
  zipParts : List (List Nat)
  centralDirectory : List (List Nat)
  offset : Nat

/-- Body of the entry loop of `createZip`: push the local header and the
payload, push the central directory record carrying the current offset,
and advance the offset by the bytes just written. -/
def createZipStep (acc : CreateZipAcc) (entry : ZipEntry) : CreateZipAcc :=
  let fileData := entry.data
  let localHeader :=
    createLocalFileHeader entry.filename fileData.length entry.crc32
  let centralEntry :=
    createCentralDirectoryEntry entry.filename fileData.length entry.crc32
      acc.offset
  { zipParts := acc.zipParts ++ [localHeader, fileData]
    centralDirectory := acc.centralDirectory ++ [centralEntry]
    offset := acc.offset + localHeader.length + fileData.length }

/-- `createZip()`: one pass over the entries, then the central directory
records, then the end record; all parts are concatenated into one
contiguous buffer (the source copies them into a single `Uint8Array` and
wraps it in a `Blob`). -/
def createZip (entries : List ZipEntry) : List Nat :=
  let acc := entries.foldl createZipStep ⟨[], [], 0⟩
  let centralDirectoryStart := acc.offset
  let centralDirectorySize := (acc.centralDirectory.map List.length).sum
  let endRecord :=
    createEndOfCentralDirectory entries.length centralDirectorySize
      centralDirectoryStart
  ((acc.zipParts ++ acc.centralDirectory) ++ [endRecord]).flatten

/-! ## The stateful wrapper (`CustomZipCreator`) -/

/-- The class state: `private entries: ZipEntry[] = []`. -/
structure CustomZipCreator where
  entries : List ZipEntry
  deriving Repr, DecidableEq

/-- A fresh `new CustomZipCreator()`. -/
def CustomZipCreator.new : CustomZipCreator := ⟨[]⟩

/-- Method `addFile` on the class state. -/
def CustomZipCreator.addFileM (z : CustomZipCreator) (filename : String)
    (data : FileData) ( isBase64 : Bool) : Except String CustomZipCreator :=
  (addFile z.entries filename data isBase64).map fun e => ⟨e⟩

/-- Method `createZip` on the class state: the body only reads
`this.entries` (never assigns to it, nor to any entry's fields), so the
state threads through unchanged next to the returned buffer. -/
def CustomZipCreator.createZipM (z : CustomZipCreator) :
    CustomZipCreator × List Nat :=
  (z, createZip z.entries)

/-! ## Field readers (`DataView.getUint16/getUint32`, little-endian) -/

/-- Value of four little-endian bytes. -/
def decodeLE4 : List Nat → Nat
  | [a, b, c, d] => a + 256 * b + 65536 * c + 16777216 * d
  | _ => 0

/-- Value of two little-endian bytes. -/
def decodeLE2 : List Nat → Nat
  | [a, b] => a + 256 * b
  | _ => 0

/-- Read the unsigned 32-bit little-endian field at byte position `p`. -/
def readUint32LE (bs : List Nat) (p : Nat) : Nat := decodeLE4 ((bs.drop p).take 4)

/-- Read the unsigned 16-bit little-endian field at byte position `p`. -/
def readUint16LE (bs : List Nat) (p : Nat) : Nat := decodeLE2 ((bs.drop p).take 2)

/-! ## Layout of the finalized buffer

The following definitions name the pieces `createZip` emits: the local
chunk of one entry (local header followed by the payload), the
concatenation of all local chunks, the central directory records together
with the running offsets they carry, and the byte positions at which an
entry's local header and central directory record begin. -/

/-- Local file header of an entry followed by its payload bytes. -/
def localChunk (e : ZipEntry) : List Nat :=
  createLocalFileHeader e.filename e.data.length e.crc32 ++ e.data

/-- All local chunks, in entry order. -/
def localsBytes (l : List ZipEntry) : List Nat := (l.map localChunk).flatten

/-- Central directory records of the entries, starting from running
offset `off`; each record carries the offset accumulated so far, exactly
as the loop in `createZip` does. -/
def cdChunks : List ZipEntry → Nat → List (List Nat)
  | [], _ => []
  | e :: rest, off =>
      createCentralDirectoryEntry e.filename e.data.length e.crc32 off
        :: cdChunks rest (off + (localChunk e).length)

/-- Byte position of entry `i`'s local header in the finalized buffer:
the total length of the local chunks preceding it. -/
def offsetOf (l : List ZipEntry) (i : Nat) : Nat :=
  ((l.take i).map fun e => (localChunk e).length).sum

/-- Total size of the central directory. -/
def cdirSize (l : List ZipEntry) : Nat := ((cdChunks l 0).map List.length).sum

/-- Byte position of entry `i`'s central directory record in the
finalized buffer: all local chunks plus the preceding records. -/
def cdPos (l : List ZipEntry) (i : Nat) : Nat :=
  (localsBytes l).length + (((cdChunks l 0).take i).map List.length).sum

/-- A filename whose UTF-8 encoding is 65536 bytes long, one byte more
than fits the 16-bit filename-length field. -/
def longName : String := String.mk (List.replicate 65536 'a')

/-- An entry whose payload length `2 ^ 32` does not fit an unsigned
32-bit field, exactly as `addFile` would build it. -/
def hugeEntry : ZipEntry :=
  ⟨"a", List.replicate 4294967296 0, calculateCRC32 (List.replicate 4294967296 0)⟩

/-- A small entry placed after `hugeEntry`, so that its local header
starts past byte `2 ^ 32`. -/
def tinyEntry : ZipEntry := ⟨"b", [], calculateCRC32 []⟩

/-- The single entry of the C7 scenario, exactly as `addFile` builds it. -/
def pngEntry : ZipEntry :=
  ⟨"page_1.png", [0x89, 0x50, 0x4e, 0x47], calculateCRC32 [0x89, 0x50, 0x4e, 0x47]⟩

/-- Two small entries used to instantiate the general layout theorems. -/
def w2entries : List ZipEntry :=
  [⟨"a", [1, 2, 3], calculateCRC32 [1, 2, 3]⟩, ⟨"bc", [4], calculateCRC32 [4]⟩]

/-- A builder state whose entry checksum is written as `calculateCRC32`. -/
def w8a : List ZipEntry := [⟨"a", [1], calculateCRC32 [1]⟩]

/-- The same entry with its checksum written as the literal value. -/
def w8b : List ZipEntry := [⟨"a", [1], 2768625435⟩]

/-! ## Theorems -/

set_option maxRecDepth 100000

lemma sum_take_le (xs : List Nat) (i : Nat) : (xs.take i).sum ≤ xs.sum := by
  conv_rhs => rw [← List.take_append_drop i xs]
  rw [List.sum_append]
  omega

lemma foldl_createZipStep (l : List ZipEntry) (P C : List (List Nat)) (o : Nat) :
    l.foldl createZipStep ⟨P, C, o⟩ =
      ⟨P ++ l.flatMap (fun e =>
          [createLocalFileHeader e.filename e.data.length e.crc32, e.data]),
       C ++ cdChunks l o,
       o + (l.map fun e => (localChunk e).length).sum⟩ := by
  induction l generalizing P C o with
  | nil => simp [cdChunks]
  | cons e rest ih =>
      simp only [List.foldl_cons, createZipStep, ih, cdChunks, List.flatMap_cons,
        List.map_cons, List.sum_cons, localChunk, List.length_append]
      simp only [CreateZipAcc.mk.injEq]
      refine ⟨?_, ?_, ?_⟩
      · simp [List.append_assoc]
      · rw [Nat.add_assoc]; simp [List.append_assoc]
      · omega

lemma createZip_eq (l : List ZipEntry) :
    createZip l = localsBytes l ++ ((cdChunks l 0).flatten ++
      createEndOfCentralDirectory l.length (cdirSize l) (localsBytes l).length) := by
  unfold createZip
  rw [foldl_createZipStep]
  have hflat : ∀ m : List ZipEntry,
      (m.flatMap fun e =>
        [createLocalFileHeader e.filename e.data.length e.crc32, e.data]).flatten
        = localsBytes m := by
    intro m
    induction m with
    | nil => rfl
    | cons e rest ih =>
        simp [localsBytes, localChunk, List.append_assoc] at *
        simp [ih]
  have hlen : (l.map fun e => (localChunk e).length).sum = (localsBytes l).length := by
    simp [localsBytes, Function.comp_def]
  simp only [List.nil_append, cdirSize]
  rw [← hlen]
  simp [hflat l, List.append_assoc]

lemma flatten_drop_sum : ∀ (parts : List (List Nat)) (i : Nat),
    parts.flatten.drop (((parts.take i).map List.length).sum) = (parts.drop i).flatten
  | _, 0 => by simp
  | [], _ + 1 => by simp
  | p :: rest, i + 1 => by
      simp only [List.take_succ_cons, List.map_cons, List.sum_cons, List.flatten_cons,
        List.drop_succ_cons]
      rw [← List.drop_drop, List.drop_left]
      exact flatten_drop_sum rest i

lemma offsetOf_cons_succ (e : ZipEntry) (rest : List ZipEntry) (i : Nat) :
    offsetOf (e :: rest) (i + 1) = (localChunk e).length + offsetOf rest i := by
  simp [offsetOf]

lemma cdChunks_drop : ∀ (l : List ZipEntry) (o i : Nat), i ≤ l.length →
    (cdChunks l o).drop i = cdChunks (l.drop i) (o + offsetOf l i)
  | _, _, 0, _ => by simp [offsetOf]
  | [], _, _ + 1, h => by simp at h
  | e :: rest, o, i + 1, h => by
      simp only [cdChunks, List.drop_succ_cons, offsetOf_cons_succ]
      rw [cdChunks_drop rest _ i (by simpa using h)]
      ring_nf

lemma localsBytes_drop (l : List ZipEntry) (i : Nat) :
    (localsBytes l).drop (offsetOf l i) = ((l.drop i).map localChunk).flatten := by
  have h : offsetOf l i = (((l.map localChunk).take i).map List.length).sum := by
    simp [offsetOf, List.map_take, Function.comp_def]
  rw [localsBytes, h, flatten_drop_sum, List.map_drop]

lemma offsetOf_le_length (l : List ZipEntry) (i : Nat) :
    offsetOf l i ≤ (localsBytes l).length := by
  calc offsetOf l i = (((l.map localChunk).map List.length).take i).sum := by
        simp [offsetOf, List.map_take, Function.comp_def]
    _ ≤ ((l.map localChunk).map List.length).sum := sum_take_le _ i
    _ = (localsBytes l).length := by simp [localsBytes]

lemma readUint32LE_add (bs : List Nat) (p k : Nat) :
    readUint32LE bs (p + k) = readUint32LE (bs.drop p) k := by
  simp [readUint32LE, List.drop_drop]

lemma exists_local_tail (l : List ZipEntry) (i : Nat) (h : i < l.length) :
    ∃ B, (createZip l).drop (offsetOf l i) =
      createLocalFileHeader (l[i]).filename (l[i]).data.length (l[i]).crc32 ++ B := by
  rw [createZip_eq, List.drop_append_of_le_length (offsetOf_le_length l i),
    localsBytes_drop, List.drop_eq_getElem_cons h]
  simp only [List.map_cons, List.flatten_cons, localChunk, List.append_assoc]
  exact ⟨_, rfl⟩

lemma exists_cd_tail (l : List ZipEntry) (i : Nat) (h : i < l.length) :
    ∃ B, (createZip l).drop (cdPos l i) =
      createCentralDirectoryEntry (l[i]).filename (l[i]).data.length (l[i]).crc32
        (offsetOf l i) ++ B := by
  rw [createZip_eq, cdPos, ← List.drop_drop, List.drop_left]
  have hs : (((cdChunks l 0).take i).map List.length).sum ≤ ((cdChunks l 0).flatten).length := by
    rw [List.length_flatten, List.map_take]
    exact sum_take_le _ i
  rw [List.drop_append_of_le_length hs, flatten_drop_sum,
    cdChunks_drop l 0 i (Nat.le_of_lt h), List.drop_eq_getElem_cons h]
  simp only [cdChunks, Nat.zero_add, List.flatten_cons, List.append_assoc]
  exact ⟨_, rfl⟩

lemma localHeader_sig_field (f : String) (s c : Nat) (B : List Nat) :
    (createLocalFileHeader f s c ++ B).take 4 = uint32LE 0x04034b50 := by
  simp [createLocalFileHeader, uint32LE, uint16LE]

lemma localHeader_crc_field (f : String) (s c : Nat) (B : List Nat) :
    readUint32LE (createLocalFileHeader f s c ++ B) 14 = c % 4294967296 := by
  simp [createLocalFileHeader, readUint32LE, uint32LE, uint16LE, decodeLE4]
  omega

lemma localHeader_csize_field (f : String) (s c : Nat) (B : List Nat) :
    readUint32LE (createLocalFileHeader f s c ++ B) 18 = s % 4294967296 := by
  simp [createLocalFileHeader, readUint32LE, uint32LE, uint16LE, decodeLE4]
  omega

lemma localHeader_usize_field (f : String) (s c : Nat) (B : List Nat) :
    readUint32LE (createLocalFileHeader f s c ++ B) 22 = s % 4294967296 := by
  simp [createLocalFileHeader, readUint32LE, uint32LE, uint16LE, decodeLE4]
  omega

lemma cdRecord_crc_field (f : String) (s c o : Nat) (B : List Nat) :
    readUint32LE (createCentralDirectoryEntry f s c o ++ B) 16 = c % 4294967296 := by
  simp [createCentralDirectoryEntry, readUint32LE, uint32LE, uint16LE, decodeLE4]
  omega

lemma cdRecord_csize_field (f : String) (s c o : Nat) (B : List Nat) :
    readUint32LE (createCentralDirectoryEntry f s c o ++ B) 20 = s % 4294967296 := by
  simp [createCentralDirectoryEntry, readUint32LE, uint32LE, uint16LE, decodeLE4]
  omega

lemma cdRecord_usize_field (f : String) (s c o : Nat) (B : List Nat) :
    readUint32LE (createCentralDirectoryEntry f s c o ++ B) 24 = s % 4294967296 := by
  simp [createCentralDirectoryEntry, readUint32LE, uint32LE, uint16LE, decodeLE4]
  omega

lemma cdRecord_offset_field (f : String) (s c o : Nat) (B : List Nat) :
    readUint32LE (createCentralDirectoryEntry f s c o ++ B) 42 = o % 4294967296 := by
  simp [createCentralDirectoryEntry, readUint32LE, uint32LE, uint16LE, decodeLE4]
  omega

lemma createZip_local_sig (l : List ZipEntry) (i : Nat) (h : i < l.length) :
    ((createZip l).drop (offsetOf l i)).take 4 = uint32LE 0x04034b50 := by
  obtain ⟨B, hB⟩ := exists_local_tail l i h
  rw [hB, localHeader_sig_field]

lemma createZip_local_crc (l : List ZipEntry) (i : Nat) (h : i < l.length) :
    readUint32LE (createZip l) (offsetOf l i + 14) = (l[i]).crc32 % 4294967296 := by
  obtain ⟨B, hB⟩ := exists_local_tail l i h
  rw [readUint32LE_add, hB, localHeader_crc_field]

lemma createZip_local_csize (l : List ZipEntry) (i : Nat) (h : i < l.length) :
    readUint32LE (createZip l) (offsetOf l i + 18) = (l[i]).data.length % 4294967296 := by
  obtain ⟨B, hB⟩ := exists_local_tail l i h
  rw [readUint32LE_add, hB, localHeader_csize_field]

lemma createZip_local_usize (l : List ZipEntry) (i : Nat) (h : i < l.length) :
    readUint32LE (createZip l) (offsetOf l i + 22) = (l[i]).data.length % 4294967296 := by
  obtain ⟨B, hB⟩ := exists_local_tail l i h
  rw [readUint32LE_add, hB, localHeader_usize_field]

lemma createZip_cd_crc (l : List ZipEntry) (i : Nat) (h : i < l.length) :
    readUint32LE (createZip l) (cdPos l i + 16) = (l[i]).crc32 % 4294967296 := by
  obtain ⟨B, hB⟩ := exists_cd_tail l i h
  rw [readUint32LE_add, hB, cdRecord_crc_field]

lemma createZip_cd_csize (l : List ZipEntry) (i : Nat) (h : i < l.length) :
    readUint32LE (createZip l) (cdPos l i + 20) = (l[i]).data.length % 4294967296 := by
  obtain ⟨B, hB⟩ := exists_cd_tail l i h
  rw [readUint32LE_add, hB, cdRecord_csize_field]

lemma createZip_cd_usize (l : List ZipEntry) (i : Nat) (h : i < l.length) :
    readUint32LE (createZip l) (cdPos l i + 24) = (l[i]).data.length % 4294967296 := by
  obtain ⟨B, hB⟩ := exists_cd_tail l i h
  rw [readUint32LE_add, hB, cdRecord_usize_field]

lemma createZip_cd_offset (l : List ZipEntry) (i : Nat) (h : i < l.length) :
    readUint32LE (createZip l) (cdPos l i + 42) = offsetOf l i % 4294967296 := by
  obtain ⟨B, hB⟩ := exists_cd_tail l i h
  rw [readUint32LE_add, hB, cdRecord_offset_field]

/-- C1: the checksum function (`calculateCRC32`, built on the 256-entry
lookup table `crcTable`) implements CRC-32/ISO-HDLC: it maps the empty
byte sequence to `0x00000000` and the ASCII bytes of `"123456789"` to
`0xCBF43926`. -/
theorem calculateCRC32_iso_hdlc_vectors :
    crcTable.length = 256 ∧
    calculateCRC32 [] = 0x00000000 ∧
    textEncode "123456789" = [0x31, 0x32, 0x33, 0x34, 0x35, 0x36, 0x37, 0x38, 0x39] ∧
    calculateCRC32 (textEncode "123456789") = 0xCBF43926 := by
  refine ⟨by decide, by decide, by decide, by decide⟩

/-- C4: `createZip` on a builder with zero entries returns a buffer of
exactly 22 bytes: a single end-of-central-directory record with signature
`0x06054B50`, both entry counts `0`, central directory size `0` and
central directory offset `0`. -/
theorem createZip_empty :
    (createZip []).length = 22 ∧
    createZip [] = createEndOfCentralDirectory 0 0 0 ∧
    (createZip []).take 4 = uint32LE 0x06054b50 ∧
    readUint16LE (createZip []) 8 = 0 ∧      -- records on this disk
    readUint16LE (createZip []) 10 = 0 ∧     -- total records
    readUint32LE (createZip []) 12 = 0 ∧     -- central directory size
    readUint32LE (createZip []) 16 = 0 := by -- central directory offset
  refine ⟨by decide, by decide, by decide, by decide, by decide, by decide, by decide⟩

/-- C7: after adding exactly one entry named `"page_1.png"` with payload
`[0x89, 0x50, 0x4E, 0x47]`, `createZip` returns a buffer starting with
bytes `50 4B 03 04`, of total length `30 + 10 + 4 + 46 + 10 + 22 = 122`,
and the checksum stored for that entry (the CRC-32 field of its local
header, at byte 14, and of its central directory record, at byte
44 + 16 = 60) is the CRC-32/ISO-HDLC value `0x5bebbea5` of those four
payload bytes. -/
theorem createZip_png_scenario :
    addFile [] "page_1.png" (.bytes [0x89, 0x50, 0x4e, 0x47]) false = .ok [pngEntry] ∧
    (createZip [pngEntry]).take 4 = [0x50, 0x4b, 0x03, 0x04] ∧
    (createZip [pngEntry]).length = 122 ∧
    readUint32LE (createZip [pngEntry]) 14 = calculateCRC32 [0x89, 0x50, 0x4e, 0x47] ∧
    readUint32LE (createZip [pngEntry]) 60 = calculateCRC32 [0x89, 0x50, 0x4e, 0x47] ∧
    calculateCRC32 [0x89, 0x50, 0x4e, 0x47] = 0x5bebbea5 :=
  ⟨rfl, by decide, by decide, by decide, by decide, by decide⟩

/-! ## Bounds and auxiliary facts -/

lemma crcStep_lt {x : Nat} (hx : x < 4294967296) : crcStep x < 4294967296 := by
  have hp : (4294967296 : Nat) = 2 ^ 32 := by norm_num
  have hs : x >>> 1 < 4294967296 := by
    rw [Nat.shiftRight_eq_div_pow]
    omega
  unfold crcStep
  split
  · rw [hp] at hs ⊢
    exact Nat.xor_lt_two_pow (by norm_num) hs
  · exact hs

lemma iterate_crcStep_lt (n : Nat) {x : Nat} (hx : x < 4294967296) :
    crcStep^[n] x < 4294967296 := by
  induction n generalizing x with
  | zero => simpa using hx
  | succ k ih =>
      rw [Function.iterate_succ_apply]
      exact ih (crcStep_lt hx)

lemma crcTable_getD_lt (idx : Nat) : crcTable.getD idx 0 < 4294967296 := by
  rw [List.getD_eq_getElem?_getD]
  rcases h : crcTable[idx]? with _ | y
  · simp
  · simp only [Option.getD_some]
    have hy : y ∈ crcTable := List.getElem?_mem h
    rw [crcTable] at hy
    obtain ⟨j, hj, rfl⟩ := List.mem_map.mp hy
    have : j < 256 := List.mem_range.mp hj
    exact iterate_crcStep_lt 8 (by omega)

lemma crcUpdate_lt {crc : Nat} (byte : Nat) (h : crc < 4294967296) :
    crcUpdate crc byte < 4294967296 := by
  have hp : (4294967296 : Nat) = 2 ^ 32 := by norm_num
  have h1 := crcTable_getD_lt ((crc ^^^ byte) &&& 0xff)
  have h2 : crc >>> 8 < 4294967296 := by
    rw [Nat.shiftRight_eq_div_pow]
    have := Nat.div_le_self crc (2 ^ 8)
    omega
  rw [crcUpdate, hp]
  rw [hp] at h1 h2
  exact Nat.xor_lt_two_pow h1 h2

lemma calculateCRC32_lt (data : List Nat) : calculateCRC32 data < 4294967296 := by
  have hp : (4294967296 : Nat) = 2 ^ 32 := by norm_num
  have hfold : ∀ (ds : List Nat) (crc : Nat), crc < 4294967296 →
      ds.foldl crcUpdate crc < 4294967296 := by
    intro ds
    induction ds with
    | nil => intro crc h; simpa using h
    | cons b rest ih =>
        intro crc h
        rw [List.foldl_cons]
        exact ih _ (crcUpdate_lt b h)
  have h1 := hfold data 0xffffffff (by norm_num)
  rw [calculateCRC32, hp]
  exact Nat.xor_lt_two_pow (hp ▸ h1) (by norm_num)

lemma utf8_replicate_a (n : Nat) :
    ((List.replicate n 'a').flatMap utf8EncodeChar).length = n := by
  induction n with
  | zero => rfl
  | succ k ih =>
      rw [List.replicate_succ, List.flatMap_cons, List.length_append, ih,
        show utf8EncodeChar 'a' = [97] from rfl]
      simp [Nat.add_comm]

lemma textEncode_longName : (textEncode longName).length = 65536 := by
  have h : textEncode longName = (List.replicate 65536 'a').flatMap utf8EncodeChar := rfl
  rw [h, utf8_replicate_a]

lemma length_createLocalFileHeader (f : String) (s c : Nat) :
    (createLocalFileHeader f s c).length = 30 + (textEncode f).length := by
  simp [createLocalFileHeader, uint32LE, uint16LE]
  omega

lemma splitOnComma_not_mem {l : List Char} (h : ',' ∉ l) : splitOnComma l = [l] := by
  induction l with
  | nil => rfl
  | cons c rest ih =>
      rw [List.mem_cons, not_or] at h
      rw [splitOnComma, if_neg (fun hc => h.1 hc.symm), ih h.2]

lemma splitOnComma_append {pre : List Char} (post : List Char) (h : ',' ∉ pre) :
    splitOnComma (pre ++ ',' :: post) = pre :: splitOnComma post := by
  induction pre with
  | nil => simp [splitOnComma]
  | cons c p ih =>
      rw [List.mem_cons, not_or] at h
      rw [List.cons_append, splitOnComma, if_neg (fun hc => h.1 hc.symm),
        ih h.2]

lemma mem_stripOneEq {c : Char} (hc : c ≠ '=') {l : List Char} (h : c ∈ l) :
    c ∈ stripOneEq l := by
  unfold stripOneEq
  split
  · next heq =>
      have hne : l ≠ [] := by
        intro h0
        rw [h0] at heq
        simp at heq
      have hlast : l.getLast hne = '=' := by
        have h1 := List.getLast?_eq_getLast l hne
        rw [heq] at h1
        exact (Option.some_inj.mp h1).symm
      have hsplit := List.dropLast_concat_getLast hne
      rw [← hsplit, List.mem_append] at h
      rcases h with h | h
      · exact h
      · rw [hlast] at h
        simp at h
        exact absurd h hc
  · exact h

lemma mapM_b64Val_none {c : Char} (hval : b64Val c = none) :
    ∀ {l : List Char}, c ∈ l → l.mapM b64Val = none := by
  intro l
  induction l with
  | nil => intro h; simp at h
  | cons a rest ih =>
      intro h
      rw [List.mem_cons] at h
      rw [List.mapM_cons]
      rcases h with rfl | h
      · rw [hval]; rfl
      · rcases ha : b64Val a with _ | v
        · rfl
        · simp only [ha, ih h]
          rfl

lemma atobChars_some_no_comma {post : List Char} {bytes : List Nat}
    (h : atobChars post = some bytes) : ',' ∉ post := by
  intro hmem
  have hval : b64Val ',' = none := by decide
  have hws : isB64Whitespace ',' = false := by decide
  rw [atobChars] at h
  set d0 := post.filter (fun c => !isB64Whitespace c) with hd0
  have hm0 : ',' ∈ d0 := List.mem_filter.mpr ⟨hmem, by rw [hws]; rfl⟩
  set d1 := if d0.length % 4 = 0 then stripOneEq (stripOneEq d0) else d0 with hd1
  have hm1 : ',' ∈ d1 := by
    rw [hd1]
    split
    · exact mem_stripOneEq (by decide) (mem_stripOneEq (by decide) hm0)
    · exact hm0
  rw [mapM_b64Val_none hval hm1] at h
  split at h
  · exact Option.noConfusion h
  · exact Option.noConfusion h

lemma addFile_str_base64_none {entries : List ZipEntry} {filename s : String}
    (hs : atob s = none) :
    addFile entries filename (.str s) true = .error "InvalidCharacterError" := by
  simp [addFile, hs]

lemma addFile_str_base64_some {entries : List ZipEntry} {filename s : String}
    {bytes : List Nat} (hs : atob s = some bytes) :
    addFile entries filename (.str s) true =
      .ok (entries ++ [⟨filename, bytes, calculateCRC32 bytes⟩]) := by
  simp [addFile, hs]

lemma entries_ext : ∀ (l1 l2 : List ZipEntry),
    (∀ e ∈ l1, e.crc32 = calculateCRC32 e.data) →
    (∀ e ∈ l2, e.crc32 = calculateCRC32 e.data) →
    l1.map ZipEntry.filename = l2.map ZipEntry.filename →
    l1.map ZipEntry.data = l2.map ZipEntry.data → l1 = l2
  | [], [], _, _, _, _ => rfl
  | [], _ :: _, _, _, hn, _ => by simp at hn
  | _ :: _, [], _, _, hn, _ => by simp at hn
  | e1 :: r1, e2 :: r2, h1, h2, hn, hd => by
      simp only [List.map_cons, List.cons.injEq] at hn hd
      have hc1 := h1 e1 (List.mem_cons_self e1 r1)
      have hc2 := h2 e2 (List.mem_cons_self e2 r2)
      have he : e1 = e2 := by
        rcases e1 with ⟨f1, d1, c1⟩
        rcases e2 with ⟨f2, d2, c2⟩
        simp_all
      rw [he, entries_ext r1 r2 (fun e he' => h1 e (List.mem_cons_of_mem _ he'))
        (fun e he' => h2 e (List.mem_cons_of_mem _ he')) hn.2 hd.2]

/-- C2 (amended): for every entry list and index, provided the entry's
local-header offset is representable in 32 bits, the relative-offset
field of its central directory record (4 bytes at position
`cdPos l i + 42`) stores exactly the byte index at which the entry's
local file header begins, and the bytes at that index are the local
header signature `0x04034B50`.  The original claim, stated for every
sequence of added entries, fails: the offset field is written modulo
`2 ^ 32` (see the counterexample). -/
theorem cd_offset_integrity (l : List ZipEntry) (i : Nat) (h : i < l.length)
    (hoff : offsetOf l i < 4294967296) :
    readUint32LE (createZip l) (cdPos l i + 42) = offsetOf l i ∧
    ((createZip l).drop (offsetOf l i)).take 4 = uint32LE 0x04034b50 :=
  ⟨by rw [createZip_cd_offset l i h, Nat.mod_eq_of_lt hoff], createZip_local_sig l i h⟩

/-- Witness for C2: the two-entry archive `w2entries` at index 1. -/
theorem cd_offset_integrity_witness :
    (1 < w2entries.length ∧ offsetOf w2entries 1 < 4294967296) ∧
    readUint32LE (createZip w2entries) (cdPos w2entries 1 + 42) = offsetOf w2entries 1 ∧
    ((createZip w2entries).drop (offsetOf w2entries 1)).take 4 = uint32LE 0x04034b50 :=
  ⟨⟨by decide, by decide⟩, cd_offset_integrity w2entries 1 (by decide) (by decide)⟩

/-- Counterexample for C2 as stated: after a first entry with a `2 ^ 32`
byte payload, the second entry's local header actually begins at byte
`4294967327`, but its central directory record stores
`4294967327 mod 2 ^ 32 = 31`. -/
theorem cd_offset_integrity_counterexample :
    addFile [] "a" (.bytes (List.replicate 4294967296 0)) false = .ok [hugeEntry] ∧
    addFile [hugeEntry] "b" (.bytes []) false = .ok [hugeEntry, tinyEntry] ∧
    offsetOf [hugeEntry, tinyEntry] 1 = 4294967327 ∧
    readUint32LE (createZip [hugeEntry, tinyEntry]) (cdPos [hugeEntry, tinyEntry] 1 + 42) = 31 ∧
    ¬ readUint32LE (createZip [hugeEntry, tinyEntry]) (cdPos [hugeEntry, tinyEntry] 1 + 42)
        = offsetOf [hugeEntry, tinyEntry] 1 := by
  have ha : (textEncode "a").length = 1 := by decide
  have h1 : (localChunk hugeEntry).length = 4294967327 := by
    rw [localChunk, List.length_append, length_createLocalFileHeader,
      show hugeEntry.data = List.replicate 4294967296 0 from rfl,
      show hugeEntry.filename = "a" from rfl, List.length_replicate, ha]
  have hoff : offsetOf [hugeEntry, tinyEntry] 1 = 4294967327 := by
    rw [offsetOf, show [hugeEntry, tinyEntry].take 1 = [hugeEntry] from rfl,
      List.map_cons, List.map_nil, List.sum_cons, List.sum_nil, h1]
    omega
  have hlt : 1 < [hugeEntry, tinyEntry].length := by decide
  have hread : readUint32LE (createZip [hugeEntry, tinyEntry])
      (cdPos [hugeEntry, tinyEntry] 1 + 42) = 31 := by
    rw [createZip_cd_offset _ 1 hlt, hoff]
  exact ⟨rfl, rfl, hoff, hread, by rw [hread, hoff]; decide⟩

/-- C3 (amended): for every entry whose stored checksum is the one
`addFile` computes (the invariant of every added entry) and whose
payload length is representable in 32 bits, the CRC-32 field of the
local header (offset 14) and of the central directory record (offset 16)
both store the checksum recomputed over the payload, and all four size
fields (local offsets 18 and 22, central offsets 20 and 24) store the
payload length.  The original claim, for every added entry, fails for
payloads of `2 ^ 32` bytes or more: the size fields are written modulo
`2 ^ 32` (see the counterexample). -/
theorem entry_fields_consistency (l : List ZipEntry) (i : Nat) (h : i < l.length)
    (hcrc : (l[i]).crc32 = calculateCRC32 (l[i]).data)
    (hlen : (l[i]).data.length < 4294967296) :
    readUint32LE (createZip l) (offsetOf l i + 14) = calculateCRC32 (l[i]).data ∧
    readUint32LE (createZip l) (cdPos l i + 16) = calculateCRC32 (l[i]).data ∧
    readUint32LE (createZip l) (offsetOf l i + 18) = (l[i]).data.length ∧
    readUint32LE (createZip l) (offsetOf l i + 22) = (l[i]).data.length ∧
    readUint32LE (createZip l) (cdPos l i + 20) = (l[i]).data.length ∧
    readUint32LE (createZip l) (cdPos l i + 24) = (l[i]).data.length := by
  have hc := calculateCRC32_lt (l[i]).data
  refine ⟨?_, ?_, ?_, ?_, ?_, ?_⟩
  · rw [createZip_local_crc l i h, hcrc, Nat.mod_eq_of_lt hc]
  · rw [createZip_cd_crc l i h, hcrc, Nat.mod_eq_of_lt hc]
  · rw [createZip_local_csize l i h, Nat.mod_eq_of_lt hlen]
  · rw [createZip_local_usize l i h, Nat.mod_eq_of_lt hlen]
  · rw [createZip_cd_csize l i h, Nat.mod_eq_of_lt hlen]
  · rw [createZip_cd_usize l i h, Nat.mod_eq_of_lt hlen]

/-- Witness for C3: the two-entry archive `w2entries` at index 0. -/
theorem entry_fields_consistency_witness :
    (0 < w2entries.length ∧
     (w2entries[0]).crc32 = calculateCRC32 (w2entries[0]).data ∧
     (w2entries[0]).data.length < 4294967296) ∧
    readUint32LE (createZip w2entries) (offsetOf w2entries 0 + 14)
      = calculateCRC32 (w2entries[0]).data ∧
    readUint32LE (createZip w2entries) (cdPos w2entries 0 + 16)
      = calculateCRC32 (w2entries[0]).data ∧
    readUint32LE (createZip w2entries) (offsetOf w2entries 0 + 18)
      = (w2entries[0]).data.length ∧
    readUint32LE (createZip w2entries) (offsetOf w2entries 0 + 22)
      = (w2entries[0]).data.length ∧
    readUint32LE (createZip w2entries) (cdPos w2entries 0 + 20)
      = (w2entries[0]).data.length ∧
    readUint32LE (createZip w2entries) (cdPos w2entries 0 + 24)
      = (w2entries[0]).data.length :=
  ⟨⟨by decide, by decide, by decide⟩,
   entry_fields_consistency w2entries 0 (by decide) (by decide) (by decide)⟩

/-- Counterexample for C3 as stated: an added entry with a `2 ^ 32` byte
payload has compressed-size field `4294967296 mod 2 ^ 32 = 0`, not the
payload length. -/
theorem entry_fields_counterexample :
    addFile [] "a" (.bytes (List.replicate 4294967296 0)) false = .ok [hugeEntry] ∧
    hugeEntry.data.length = 4294967296 ∧
    offsetOf [hugeEntry] 0 = 0 ∧
    readUint32LE (createZip [hugeEntry]) (offsetOf [hugeEntry] 0 + 18) = 0 ∧
    ¬ readUint32LE (createZip [hugeEntry]) (offsetOf [hugeEntry] 0 + 18)
        = hugeEntry.data.length := by
  have hlen : hugeEntry.data.length = 4294967296 := by
    rw [show hugeEntry.data = List.replicate 4294967296 0 from rfl, List.length_replicate]
  have hoff : offsetOf [hugeEntry] 0 = 0 := by
    rw [offsetOf, List.take_zero, List.map_nil, List.sum_nil]
  have hlt : 0 < [hugeEntry].length := by decide
  have hread : readUint32LE (createZip [hugeEntry]) (offsetOf [hugeEntry] 0 + 18) = 0 := by
    rw [createZip_local_csize _ 0 hlt,
      show ([hugeEntry])[0] = hugeEntry from rfl, hlen]
  exact ⟨rfl, hlen, hoff, hread, by rw [hread, hlen]; decide⟩

/-- C5 (amended): `addFile` performs no validation at all.  Even when the
name encodes to more than 65535 bytes, or the payload length exceeds the
unsigned 32-bit range, the call succeeds and appends the entry (the
oversized values are silently truncated later, at serialization time).
The original claim, that such calls fail and leave the entry sequence
unchanged, is refuted by the counterexample. -/
theorem addFile_no_validation (entries : List ZipEntry) (filename : String)
    (b : List Nat) ( isBase64 : Bool)
    (_hbig : 65535 < (textEncode filename).length ∨ 4294967295 < b.length) :
    addFile entries filename (.bytes b) isBase64 =
      .ok (entries ++ [⟨filename, b, calculateCRC32 b⟩]) := rfl

/-- Witness for C5: a 65536-byte name is accepted and appended. -/
theorem addFile_no_validation_witness :
    (65535 < (textEncode longName).length ∨ 4294967295 < ([1] : List Nat).length) ∧
    addFile [] longName (.bytes [1]) false = .ok [⟨longName, [1], calculateCRC32 [1]⟩] :=
  ⟨Or.inl (by rw [textEncode_longName]; decide),
   addFile_no_validation [] longName [1] false
     (Or.inl (by rw [textEncode_longName]; decide))⟩

/-- Counterexample for C5 as stated: the name `longName` encodes to
65536 bytes, which exceeds the 16-bit field, yet `addFile` raises no
error and does append the entry. -/
theorem addFile_no_validation_counterexample :
    (textEncode longName).length = 65536 ∧
    addFile [] longName (.bytes [1]) false = .ok [⟨longName, [1], calculateCRC32 [1]⟩] :=
  ⟨textEncode_longName, rfl⟩

/-- C6: when the base64 registration path is given malformed base64 text
(`atob` fails), both `addFile` with the base64 flag and
`addImageFromDataURL` (whose decoded segment, the text between the first
and second comma, is malformed) raise the error synchronously and return
no new entry sequence: the builder state is left exactly as it was. -/
theorem addFile_malformed_base64_error (entries : List ZipEntry) (filename s : String)
    (pre post : List Char) (hs : atob s = none) (hpre : ',' ∉ pre) (hpost : ',' ∉ post)
    (hbad : atobChars post = none) :
    addFile entries filename (.str s) true = .error "InvalidCharacterError" ∧
    addImageFromDataURL entries filename (String.mk (pre ++ ',' :: post)) =
      .error "InvalidCharacterError" := by
  refine ⟨addFile_str_base64_none hs, ?_⟩
  rw [addImageFromDataURL,
    show (String.mk (pre ++ ',' :: post)).data = pre ++ ',' :: post from rfl,
    splitOnComma_append post hpre, splitOnComma_not_mem hpost]
  show addFile entries filename (.str (String.mk post)) true = _
  exact addFile_str_base64_none hbad

/-- Witness for C6: the malformed base64 text `"!!!!"`, both alone and
behind a `data:image/png;base64,` prefix. -/
theorem addFile_malformed_base64_error_witness :
    (atob "!!!!" = none ∧ ',' ∉ ("data:image/png;base64").data ∧
     ',' ∉ ("!!!!").data ∧ atobChars ("!!!!").data = none) ∧
    addFile [] "x.png" (.str "!!!!") true = .error "InvalidCharacterError" ∧
    addImageFromDataURL [] "x.png"
        (String.mk (("data:image/png;base64").data ++ ',' :: ("!!!!").data)) =
      .error "InvalidCharacterError" :=
  ⟨⟨by decide, by decide, by decide, by decide⟩,
   addFile_malformed_base64_error [] "x.png" "!!!!" ("data:image/png;base64").data
     ("!!!!").data (by decide) (by decide) (by decide) (by decide)⟩

/-- C8: `createZip` is deterministic.  Two builders populated (in the
same order) with entries of the same names and the same payload bytes —
each carrying the checksum `addFile` stores — produce byte-identical
buffers; the special case `l2 = l1` is a repeated finalize on an
unchanged builder. -/
theorem createZip_deterministic (l1 l2 : List ZipEntry)
    (h1 : ∀ e ∈ l1, e.crc32 = calculateCRC32 e.data)
    (h2 : ∀ e ∈ l2, e.crc32 = calculateCRC32 e.data)
    (hn : l1.map ZipEntry.filename = l2.map ZipEntry.filename)
    (hd : l1.map ZipEntry.data = l2.map ZipEntry.data) :
    createZip l1 = createZip l2 := by
  rw [entries_ext l1 l2 h1 h2 hn hd]

/-- Witness for C8: the same entry once with its checksum written as a
call to `calculateCRC32` and once as the literal value. -/
theorem createZip_deterministic_witness :
    ((∀ e ∈ w8a, e.crc32 = calculateCRC32 e.data) ∧
     (∀ e ∈ w8b, e.crc32 = calculateCRC32 e.data) ∧
     w8a.map ZipEntry.filename = w8b.map ZipEntry.filename ∧
     w8a.map ZipEntry.data = w8b.map ZipEntry.data) ∧
    createZip w8a = createZip w8b :=
  ⟨⟨by decide, by decide, by decide, by decide⟩,
   createZip_deterministic w8a w8b (by decide) (by decide) (by decide) (by decide)⟩

/-- C9: `createZip` does not mutate the builder.  In the state-passing
embedding of the class (the method body never assigns to `this.entries`)
the state after the call is the state before it, with the same entries,
and the returned buffer is a pure function of those entries. -/
theorem createZipM_frame (z : CustomZipCreator) :
    (z.createZipM).1 = z ∧ (z.createZipM).1.entries = z.entries ∧
    (z.createZipM).2 = createZip z.entries :=
  ⟨rfl, rfl, rfl⟩

/-- C10: for every data URL with at least one comma whose text after the
first comma is valid base64 (hence contains no further comma, so it is
exactly the segment `split(",")[1]` selects), `addImageFromDataURL`
appends exactly one entry whose payload is the base64 decoding of that
text; the part before the comma (`pre`) is arbitrary comma-free text and
is discarded without validation. -/
theorem addImageFromDataURL_decodes (entries : List ZipEntry) (filename : String)
    (pre post : List Char) (bytes : List Nat) (hpre : ',' ∉ pre)
    (hpost : atobChars post = some bytes) :
    addImageFromDataURL entries filename (String.mk (pre ++ ',' :: post)) =
      .ok (entries ++ [⟨filename, bytes, calculateCRC32 bytes⟩]) := by
  have hnc : ',' ∉ post := atobChars_some_no_comma hpost
  rw [addImageFromDataURL,
    show (String.mk (pre ++ ',' :: post)).data = pre ++ ',' :: post from rfl,
    splitOnComma_append post hpre, splitOnComma_not_mem hnc]
  show addFile entries filename (.str (String.mk post)) true = _
  exact addFile_str_base64_some hpost

/-- Witness for C10: decoding `iVBORw==` behind a
`data:image/png;base64,` prefix appends the PNG magic bytes. -/
theorem addImageFromDataURL_decodes_witness :
    (',' ∉ ("data:image/png;base64").data ∧
     atobChars ("iVBORw==").data = some [0x89, 0x50, 0x4e, 0x47]) ∧
    addImageFromDataURL [] "page_1.png"
        (String.mk (("data:image/png;base64").data ++ ',' :: ("iVBORw==").data)) =
      .ok [⟨"page_1.png", [0x89, 0x50, 0x4e, 0x47],
            calculateCRC32 [0x89, 0x50, 0x4e, 0x47]⟩] :=
  ⟨⟨by decide, by decide⟩,
   addImageFromDataURL_decodes [] "page_1.png" ("data:image/png;base64").data
     ("iVBORw==").data [0x89, 0x50, 0x4e, 0x47] (by decide) (by decide)⟩

end PdfToImage
